import Mathlib

/-!
Verification of the chess rule engine and search core
(js/utils.js, js/pieces.js, js/rules.js, js/ai.js, board module).

Boards are total functions on `Fin 8 × Fin 8`; all public operations take
`Int` coordinates, as the JavaScript functions take arbitrary numbers, and
go through `getSq`/`setSq`, which mirror the guarded array accesses of the
source.  Scores are extended rationals `WithBot (WithTop ℚ)` so that the
`-Infinity` / `Infinity` sentinels of the search have exact counterparts.
-/

set_option linter.unusedVariables false

inductive PType
  | P | N | B | R | Q | K
deriving DecidableEq, Repr

inductive Color
  | white | black
deriving DecidableEq, Repr

structure Piece where
  ptype : PType
  pcolor : Color
deriving DecidableEq, Repr

/-- The ternary `color === COLOR.WHITE ? COLOR.BLACK : COLOR.WHITE` used throughout. -/
def oppColor : Color → Color
  | .white => .black
  | .black => .white

abbrev Board := Fin 8 → Fin 8 → Option Piece

/-- utils.js `isValidCoord` -/
def isValidCoord (row col : Int) : Bool :=
  decide (0 ≤ row ∧ row < 8 ∧ 0 ≤ col ∧ col < 8)

/-- In-range read `board[row][col]`; out of range it denotes JavaScript's
`undefined`/`null`, which every guarded use of the source treats as empty. -/
def getSq (b : Board) (row col : Int) : Option Piece :=
  if h : 0 ≤ row ∧ row < 8 ∧ 0 ≤ col ∧ col < 8 then
    b ⟨row.toNat, by omega⟩ ⟨col.toNat, by omega⟩
  else none

/-- Write `board[row][col] = v` (no-op out of range; the source only writes
in-range squares). -/
def setSq (b : Board) (row col : Int) (v : Option Piece) : Board :=
  fun r c => if (r.val : Int) = row ∧ (c.val : Int) = col then v else b r c

/-- Build a board from a list of rows (for concrete test positions). -/
def mkBoard (l : List (List (Option Piece))) : Board :=
  fun r c => ((l[r.val]?.getD [])[c.val]?).getD none

def wP : Option Piece := some ⟨.P, .white⟩
def wN : Option Piece := some ⟨.N, .white⟩
def wB : Option Piece := some ⟨.B, .white⟩
def wR : Option Piece := some ⟨.R, .white⟩
def wQ : Option Piece := some ⟨.Q, .white⟩
def wK : Option Piece := some ⟨.K, .white⟩
def bP : Option Piece := some ⟨.P, .black⟩
def bN : Option Piece := some ⟨.N, .black⟩
def bB : Option Piece := some ⟨.B, .black⟩
def bR : Option Piece := some ⟨.R, .black⟩
def bQ : Option Piece := some ⟨.Q, .black⟩
def bK : Option Piece := some ⟨.K, .black⟩
def ee : Option Piece := none

/-- utils.js `getPieceColor` (null-propagating) -/
def getPieceColor (piece : Option Piece) : Option Color :=
  piece.map Piece.pcolor

/-- utils.js `getPieceType` (null-propagating) -/
def getPieceType (piece : Option Piece) : Option PType :=
  piece.map Piece.ptype

/-- utils.js `PIECE_VALUE` -/
def PIECE_VALUE : PType → ℚ
  | .P => 1
  | .N => 3
  | .B => 3
  | .R => 5
  | .Q => 9
  | .K => 0

/-- Row-major enumeration of the 64 squares (the `for row … for col …` loops). -/
def allSquares : List (Fin 8 × Fin 8) :=
  (List.finRange 8).flatMap fun r => (List.finRange 8).map fun c => (r, c)

/-- utils.js `getPiecesOfColor` -/
def getPiecesOfColor (b : Board) (color : Color) : List (Piece × Int × Int) :=
  allSquares.filterMap fun rc =>
    match b rc.1 rc.2 with
    | some p => if p.pcolor = color then some (p, (rc.1.val : Int), (rc.2.val : Int)) else none
    | none => none

/-- utils.js `findKing`: the first square, in row-major order, holding the
king of the given color. -/
def findKing (b : Board) (color : Color) : Option (Int × Int) :=
  (allSquares.find? fun rc => b rc.1 rc.2 = some ⟨PType.K, color⟩).map
    fun rc => ((rc.1.val : Int), (rc.2.val : Int))

def knightOffsets : List (Int × Int) :=
  [(-2,-1), (-2,1), (-1,-2), (-1,2), (1,-2), (1,2), (2,-1), (2,1)]

def rookDirs : List (Int × Int) := [(0,1), (0,-1), (1,0), (-1,0)]

def bishopDirs : List (Int × Int) := [(1,1), (1,-1), (-1,1), (-1,-1)]

def kingOffsets : List (Int × Int) :=
  [(-1,-1), (-1,0), (-1,1), (0,-1), (0,1), (1,-1), (1,0), (1,1)]

/-- One ray of utils.js `generatePieceMoves` for sliding pieces:
`for (dist = 1; dist < 8; dist++) { … moves.push(newPos); if occupied break }`.
The blocked square is pushed regardless of its color. -/
def rayRawAux (b : Board) (row col dr dc : Int) : Nat → Int → List (Int × Int)
  | 0, _ => []
  | rem + 1, dist =>
    let nr := row + dr * dist
    let nc := col + dc * dist
    if isValidCoord nr nc then
      (nr, nc) :: (if (getSq b nr nc).isSome then [] else rayRawAux b row col dr dc rem (dist + 1))
    else []

def rayRaw (b : Board) (row col dr dc : Int) : List (Int × Int) :=
  rayRawAux b row col dr dc 7 1

/-- utils.js `generatePieceMoves`: raw unfiltered moves, used for attack
detection.  Pawns contribute forward pushes onto empty squares and diagonal
squares only when occupied (by either color); knight/king/slider targets are
kept regardless of the occupant's color. -/
def generatePieceMoves (b : Board) (row col : Int) (type : PType) : List (Int × Int) :=
  let piece := getSq b row col
  let color := getPieceColor piece
  match type with
  | .P =>
    let direction : Int := if color = some .white then -1 else 1
    let startRow : Int := if color = some .white then 6 else 1
    let forward :=
      if isValidCoord (row + direction) col ∧ getSq b (row + direction) col = none then
        (row + direction, col) ::
          (if row = startRow ∧ getSq b (row + 2 * direction) col = none then
            [(row + 2 * direction, col)]
          else [])
      else []
    let caps := [(-1 : Int), 1].filterMap fun dCol =>
      if isValidCoord (row + direction) (col + dCol) ∧
          (getSq b (row + direction) (col + dCol)).isSome then
        some (row + direction, col + dCol)
      else none
    forward ++ caps
  | .N => knightOffsets.filterMap fun o =>
      if isValidCoord (row + o.1) (col + o.2) then some (row + o.1, col + o.2) else none
  | .B => bishopDirs.flatMap fun d => rayRaw b row col d.1 d.2
  | .R => rookDirs.flatMap fun d => rayRaw b row col d.1 d.2
  | .Q => (rookDirs ++ bishopDirs).flatMap fun d => rayRaw b row col d.1 d.2
  | .K => kingOffsets.filterMap fun o =>
      if isValidCoord (row + o.1) (col + o.2) then some (row + o.1, col + o.2) else none

/-- utils.js `isSquareAttacked` -/
def isSquareAttacked (b : Board) (row col : Int) (color : Color) : Bool :=
  (getPiecesOfColor b (oppColor color)).any fun x =>
    (generatePieceMoves b x.2.1 x.2.2 x.1.ptype).any fun m =>
      decide (m.1 = row ∧ m.2 = col)

/-- One ray of the pieces.js sliders: empty squares are pushed and the ray
continues; the first occupied square is pushed only if it holds an enemy
piece, and the ray stops. -/
def raySlideAux (b : Board) (color : Color) (row col dr dc : Int) :
    Nat → Int → List (Int × Int)
  | 0, _ => []
  | rem + 1, dist =>
    let nr := row + dr * dist
    let nc := col + dc * dist
    if isValidCoord nr nc then
      match getSq b nr nc with
      | none => (nr, nc) :: raySlideAux b color row col dr dc rem (dist + 1)
      | some t => if ¬ t.pcolor = color then [(nr, nc)] else []
    else []

def raySlide (b : Board) (color : Color) (row col dr dc : Int) : List (Int × Int) :=
  raySlideAux b color row col dr dc 7 1

/-- pieces.js `getPawnMoves` -/
def getPawnMoves (b : Board) (row col : Int) (color : Color) : List (Int × Int) :=
  let direction : Int := if color = .white then -1 else 1
  let startRow : Int := if color = .white then 6 else 1
  let oneForward := row + direction
  let forward :=
    if isValidCoord oneForward col ∧ getSq b oneForward col = none then
      (oneForward, col) ::
        (if row = startRow ∧ getSq b (row + 2 * direction) col = none then
          [(row + 2 * direction, col)]
        else [])
    else []
  let caps := [(-1 : Int), 1].filterMap fun dCol =>
    let captureRow := row + direction
    let captureCol := col + dCol
    if isValidCoord captureRow captureCol then
      match getSq b captureRow captureCol with
      | some t => if ¬ t.pcolor = color then some (captureRow, captureCol) else none
      | none => none
    else none
  forward ++ caps

/-- pieces.js `getKnightMoves` -/
def getKnightMoves (b : Board) (row col : Int) (color : Color) : List (Int × Int) :=
  knightOffsets.filterMap fun o =>
    let newRow := row + o.1
    let newCol := col + o.2
    if isValidCoord newRow newCol then
      match getSq b newRow newCol with
      | none => some (newRow, newCol)
      | some t => if ¬ t.pcolor = color then some (newRow, newCol) else none
    else none

/-- pieces.js `getBishopMoves` -/
def getBishopMoves (b : Board) (row col : Int) (color : Color) : List (Int × Int) :=
  bishopDirs.flatMap fun d => raySlide b color row col d.1 d.2

/-- pieces.js `getRookMoves` -/
def getRookMoves (b : Board) (row col : Int) (color : Color) : List (Int × Int) :=
  rookDirs.flatMap fun d => raySlide b color row col d.1 d.2

/-- pieces.js `getQueenMoves` (rook directions first, then bishop) -/
def getQueenMoves (b : Board) (row col : Int) (color : Color) : List (Int × Int) :=
  (rookDirs ++ bishopDirs).flatMap fun d => raySlide b color row col d.1 d.2

/-- pieces.js `getKingMoves` (no castling) -/
def getKingMoves (b : Board) (row col : Int) (color : Color) : List (Int × Int) :=
  kingOffsets.filterMap fun o =>
    let newRow := row + o.1
    let newCol := col + o.2
    if isValidCoord newRow newCol then
      match getSq b newRow newCol with
      | none => some (newRow, newCol)
      | some t => if ¬ t.pcolor = color then some (newRow, newCol) else none
    else none

/-- pieces.js `getPseudoLegalMoves` -/
def getPseudoLegalMoves (b : Board) (row col : Int) : List (Int × Int) :=
  match getSq b row col with
  | none => []
  | some piece =>
    let color := piece.pcolor
    match piece.ptype with
    | .P => getPawnMoves b row col color
    | .N => getKnightMoves b row col color
    | .B => getBishopMoves b row col color
    | .R => getRookMoves b row col color
    | .Q => getQueenMoves b row col color
    | .K => getKingMoves b row col color

structure CastlingRights where
  whiteKingside : Bool
  whiteQueenside : Bool
  blackKingside : Bool
  blackQueenside : Bool
deriving DecidableEq, Repr

def allRights : CastlingRights := ⟨true, true, true, true⟩

/-- pieces.js `getCastlingMoves`.  Note: only `kingRow` is tested against the
home row; `kingCol` is never examined. -/
def getCastlingMoves (board : Board) (kingRow kingCol : Int) (color : Color)
    (castlingRights : CastlingRights) : List (Int × Int) :=
  let isWhite := color = Color.white
  if (isWhite ∧ ¬ kingRow = 7) ∨ (¬ isWhite ∧ ¬ kingRow = 0) then []
  else
    let ks :=
      if isWhite ∧ castlingRights.whiteKingside = true then
        if getSq board 7 7 = wR ∧ getSq board 7 5 = none ∧ getSq board 7 6 = none then
          [((7 : Int), (6 : Int))]
        else []
      else if ¬ isWhite ∧ castlingRights.blackKingside = true then
        if getSq board 0 7 = bR ∧ getSq board 0 5 = none ∧ getSq board 0 6 = none then
          [((0 : Int), (6 : Int))]
        else []
      else []
    let qs :=
      if isWhite ∧ castlingRights.whiteQueenside = true then
        if getSq board 7 0 = wR ∧ getSq board 7 1 = none ∧ getSq board 7 2 = none ∧
            getSq board 7 3 = none then
          [((7 : Int), (2 : Int))]
        else []
      else if ¬ isWhite ∧ castlingRights.blackQueenside = true then
        if getSq board 0 0 = bR ∧ getSq board 0 1 = none ∧ getSq board 0 2 = none ∧
            getSq board 0 3 = none then
          [((0 : Int), (2 : Int))]
        else []
      else []
    ks ++ qs

/-- pieces.js `getEnPassantMoves` -/
def getEnPassantMoves (b : Board) (pawnRow pawnCol : Int) (color : Color)
    (enPassantSquare : Option (Int × Int)) : List (Int × Int) :=
  match enPassantSquare with
  | none => []
  | some e =>
    if ¬ getPieceType (getSq b pawnRow pawnCol) = some .P then []
    else
      let direction : Int := if color = .white then -1 else 1
      let captureRow := pawnRow + direction
      if e.1 = captureRow ∧ (e.2 - pawnCol).natAbs = 1 then [e] else []

/-- The board transformation both rules.js `wouldLeaveKingInCheck` and
ai.js `ChessAI.simulateMove` perform (the two blocks of source are textually
identical): move the piece, remove the en-passant victim at (fromRow, toCol)
when the destination is the en-passant target, and relocate the rook when a
king moves from its home square to column 6 or 2. -/
def simMoveBoard (b : Board) (fromRow fromCol toRow toCol : Int)
    (enPassantSquare : Option (Int × Int)) : Board :=
  let piece := getSq b fromRow fromCol
  let b1 :=
    if getPieceType piece = some .P ∧ enPassantSquare = some (toRow, toCol) then
      setSq (setSq (setSq b toRow toCol piece) fromRow fromCol none) fromRow toCol none
    else
      setSq (setSq b toRow toCol piece) fromRow fromCol none
  if getPieceType piece = some .K then
    if getPieceColor piece = some .white ∧ fromRow = 7 ∧ fromCol = 4 then
      let c1 := if toCol = 6 then setSq (setSq b1 7 5 (getSq b1 7 7)) 7 7 none else b1
      if toCol = 2 then setSq (setSq c1 7 3 (getSq c1 7 0)) 7 0 none else c1
    else if ¬ getPieceColor piece = some .white ∧ fromRow = 0 ∧ fromCol = 4 then
      let c1 := if toCol = 6 then setSq (setSq b1 0 5 (getSq b1 0 7)) 0 7 none else b1
      if toCol = 2 then setSq (setSq c1 0 3 (getSq c1 0 0)) 0 0 none else c1
    else b1
  else b1

/-- rules.js `wouldLeaveKingInCheck` (the `castlingRights` parameter is
accepted and unused, as in the source). -/
def wouldLeaveKingInCheck (b : Board) (fromRow fromCol toRow toCol : Int)
    (color : Color) (castlingRights : CastlingRights)
    (enPassantSquare : Option (Int × Int)) : Bool :=
  let testBoard := simMoveBoard b fromRow fromCol toRow toCol enPassantSquare
  match findKing testBoard color with
  | none => true
  | some kp => isSquareAttacked testBoard kp.1 kp.2 color

/-- rules.js `getLegalMoves` -/
def getLegalMoves (b : Board) (row col : Int) (castlingRights : CastlingRights)
    (enPassantSquare : Option (Int × Int)) (color : Color) : List (Int × Int) :=
  let piece := getSq b row col
  if ¬ getPieceColor piece = some color then []
  else
    let pseudoLegal := getPseudoLegalMoves b row col
    let pseudoLegal :=
      if getPieceType piece = some .K then
        pseudoLegal ++ getCastlingMoves b row col color castlingRights
      else pseudoLegal
    let pseudoLegal :=
      if getPieceType piece = some .P then
        pseudoLegal ++ getEnPassantMoves b row col color enPassantSquare
      else pseudoLegal
    pseudoLegal.filter fun m =>
      ! wouldLeaveKingInCheck b row col m.1 m.2 color castlingRights enPassantSquare

/-- rules.js `isInCheck` -/
def isInCheck (b : Board) (color : Color) : Bool :=
  match findKing b color with
  | none => false
  | some kp => isSquareAttacked b kp.1 kp.2 color

/-- rules.js `isCheckmate` -/
def isCheckmate (b : Board) (color : Color) (castlingRights : CastlingRights)
    (enPassantSquare : Option (Int × Int)) : Bool :=
  if ! isInCheck b color then false
  else (getPiecesOfColor b color).all fun x =>
    (getLegalMoves b x.2.1 x.2.2 castlingRights enPassantSquare color).isEmpty

/-- rules.js `isStalemate` -/
def isStalemate (b : Board) (color : Color) (castlingRights : CastlingRights)
    (enPassantSquare : Option (Int × Int)) : Bool :=
  if isInCheck b color then false
  else (getPiecesOfColor b color).all fun x =>
    (getLegalMoves b x.2.1 x.2.2 castlingRights enPassantSquare color).isEmpty

/-- rules.js `isInsufficientMaterial` -/
def isInsufficientMaterial (b : Board) : Bool :=
  let whitePieces := getPiecesOfColor b .white
  let blackPieces := getPiecesOfColor b .black
  if whitePieces.length = 1 ∧ blackPieces.length = 1 then true
  else
    let whiteNonKing := whitePieces.filter fun x => ! decide (x.1.ptype = .K)
    let blackNonKing := blackPieces.filter fun x => ! decide (x.1.ptype = .K)
    if whiteNonKing.length = 0 ∧ blackNonKing.length = 0 then true
    else if (whiteNonKing.length = 1 ∧ blackNonKing.length = 0) ∨
        (whiteNonKing.length = 0 ∧ blackNonKing.length = 1) then
      match (if whiteNonKing.length = 1 then whiteNonKing else blackNonKing).head? with
      | some p => decide (p.1.ptype = .N ∨ p.1.ptype = .B)
      | none => false
    else if whiteNonKing.length = 1 ∧ blackNonKing.length = 1 then
      match whiteNonKing.head?, blackNonKing.head? with
      | some wp, some bp =>
        decide (wp.1.ptype = .B ∧ bp.1.ptype = .B ∧
          (wp.2.1 + wp.2.2) % 2 = (bp.2.1 + bp.2.2) % 2)
      | _, _ => false
    else false

/-- rules.js `updateCastlingRights` -/
def updateCastlingRights (castlingRights : CastlingRights) (fromRow fromCol : Int)
    (piece : Option Piece) : CastlingRights :=
  let type := getPieceType piece
  let color := getPieceColor piece
  let newRights := castlingRights
  let newRights :=
    if type = some .K then
      if color = some .white then
        { newRights with whiteKingside := false, whiteQueenside := false }
      else
        { newRights with blackKingside := false, blackQueenside := false }
    else newRights
  let newRights :=
    if color = some .white ∧ fromRow = 7 ∧ fromCol = 7 then
      { newRights with whiteKingside := false }
    else newRights
  let newRights :=
    if color = some .white ∧ fromRow = 7 ∧ fromCol = 0 then
      { newRights with whiteQueenside := false }
    else newRights
  let newRights :=
    if color = some .black ∧ fromRow = 0 ∧ fromCol = 7 then
      { newRights with blackKingside := false }
    else newRights
  let newRights :=
    if color = some .black ∧ fromRow = 0 ∧ fromCol = 0 then
      { newRights with blackQueenside := false }
    else newRights
  newRights

/-- rules.js `updateEnPassantSquare` -/
def updateEnPassantSquare (fromRow toRow toCol : Int) (piece : Option Piece) :
    Option (Int × Int) :=
  if ¬ getPieceType piece = some .P then none
  else if ¬ (toRow - fromRow).natAbs = 2 then none
  else some ((fromRow + toRow) / 2, toCol)

/-- board module `Board.getPieceAt` (guarded, fails soft for any
out-of-board coordinate). -/
def Board.getPieceAt (b : Board) (row col : Int) : Option Piece :=
  if isValidCoord row col then getSq b row col else none

/-- JavaScript numbers extended with the `-Infinity` / `Infinity` sentinels
the search uses. -/
abbrev Score := WithBot (WithTop ℚ)

def Score.num (q : ℚ) : Score := ((q : WithTop ℚ) : Score)

def Score.negInf : Score := ⊥

def Score.posInf : Score := ((⊤ : WithTop ℚ) : Score)

structure Move where
  fromSq : Int × Int
  toSq : Int × Int
deriving DecidableEq, Repr

instance : Inhabited Move := ⟨⟨(0, 0), (0, 0)⟩⟩

structure SimResult where
  newBoard : Board
  newCastling : CastlingRights
  newEnPassant : Option (Int × Int)

namespace ChessAI

/-- ai.js `ChessAI.getAllLegalMoves` -/
def getAllLegalMoves (b : Board) (color : Color) (castlingRights : CastlingRights)
    (enPassantSquare : Option (Int × Int)) : List Move :=
  (getPiecesOfColor b color).flatMap fun x =>
    (getLegalMoves b x.2.1 x.2.2 castlingRights enPassantSquare color).map fun t =>
      ⟨(x.2.1, x.2.2), t⟩

/-- ai.js `ChessAI.simulateMove` -/
def simulateMove (board : Board) (move : Move) (castlingRights : CastlingRights)
    (enPassantSquare : Option (Int × Int)) : SimResult :=
  let fromRow := move.fromSq.1
  let fromCol := move.fromSq.2
  let toRow := move.toSq.1
  let toCol := move.toSq.2
  let piece := getSq board fromRow fromCol
  let newBoard := simMoveBoard board fromRow fromCol toRow toCol enPassantSquare
  let newCastling := updateCastlingRights castlingRights fromRow fromCol piece
  let capturedPiece := getSq board toRow toCol
  let newCastling :=
    if getPieceType capturedPiece = some .R then
      if getPieceColor capturedPiece = some .white then
        let a := if toRow = 7 ∧ toCol = 7 then { newCastling with whiteKingside := false }
          else newCastling
        if toRow = 7 ∧ toCol = 0 then { a with whiteQueenside := false } else a
      else
        let a := if toRow = 0 ∧ toCol = 7 then { newCastling with blackKingside := false }
          else newCastling
        if toRow = 0 ∧ toCol = 0 then { a with blackQueenside := false } else a
    else newCastling
  let newEnPassant :=
    if getPieceType piece = some .P ∧ (toRow - fromRow).natAbs = 2 then
      some ((fromRow + toRow) / 2, toCol)
    else none
  ⟨newBoard, newCastling, newEnPassant⟩

/-- ai.js `ChessAI.evaluateKingSafety` -/
def evaluateKingSafety (board : Board) (kingPos : Int × Int) (color : Color) : ℚ :=
  let kingCol := kingPos.2
  (if kingCol = 6 ∨ kingCol = 2 then (15 : ℚ) else 0) +
    (if (3 ≤ kingCol ∧ kingCol ≤ 4) ∧ (2 ≤ kingPos.1 ∧ kingPos.1 ≤ 5) then (-20 : ℚ) else 0)

def centerSquares : List (Int × Int) := [(3,3), (3,4), (4,3), (4,4)]

/-- ai.js `ChessAI.evaluateCenterControl` -/
def evaluateCenterControl (board : Board) (color : Color) : ℚ :=
  centerSquares.foldl
    (fun control sq =>
      match getSq board sq.1 sq.2 with
      | some p =>
        if p.pcolor = color then control + PIECE_VALUE p.ptype
        else control - PIECE_VALUE p.ptype
      | none => control)
    0

/-- ai.js `ChessAI.evaluateMobility` (piece count times two) -/
def evaluateMobility (board : Board) (color : Color) : ℚ :=
  ((getPiecesOfColor board color).length : ℚ) * 2

/-- ai.js `ChessAI.evaluateBoard` -/
def evaluateBoard (board : Board) (color : Color) : ℚ :=
  let score : ℚ :=
    ((getPiecesOfColor board .white).map fun x => PIECE_VALUE x.1.ptype).sum -
      ((getPiecesOfColor board .black).map fun x => PIECE_VALUE x.1.ptype).sum
  let score := if color = .black then -score else score
  let score := score +
    (match findKing board color with
     | some kingPos => evaluateKingSafety board kingPos color
     | none => 0)
  let score := score + evaluateCenterControl board color * (3 / 10)
  let score := score + evaluateMobility board color * (1 / 10)
  score

/-- ai.js `ChessAI.minimaxSearch`.  Note that on every path the terminal
tests precede the depth test, and the side whose mate/stalemate is tested is
the side to move at this node (`isMaximizing ? color : opponent`). -/
def minimaxSearch : Board → Color → CastlingRights → Option (Int × Int) → Nat → Bool → Score
  | board, color, castlingRights, enPassantSquare, depth, isMaximizing =>
    let opponent := oppColor color
    let side := cond isMaximizing color opponent
    if isCheckmate board side castlingRights enPassantSquare then
      cond isMaximizing (Score.num 10000) (Score.num (-10000))
    else if isStalemate board side castlingRights enPassantSquare then Score.num 0
    else if isInsufficientMaterial board then Score.num 0
    else
      match depth with
      | 0 => Score.num (evaluateBoard board color)
      | d + 1 =>
        let moves := getAllLegalMoves board side castlingRights enPassantSquare
        moves.foldl
          (fun bestScore move =>
            let sr := simulateMove board move castlingRights enPassantSquare
            let s := minimaxSearch sr.newBoard color sr.newCastling sr.newEnPassant d
              (! isMaximizing)
            cond isMaximizing (max bestScore s) (min bestScore s))
          (cond isMaximizing Score.negInf Score.posInf)

/-- The `for … break` loop of ai.js `ChessAI.minimaxSearchAlphaBeta`:
fail-soft alpha-beta over a list of children. -/
def abLoop (child : Move → Score → Score → Score) (isMaximizing : Bool) :
    List Move → Score → Score → Score → Score
  | [], bestScore, _, _ => bestScore
  | move :: rest, bestScore, alpha, beta =>
    let s := child move alpha beta
    cond isMaximizing
      (let bestScore := max bestScore s
       let alpha := max alpha bestScore
       if beta ≤ alpha then bestScore else abLoop child isMaximizing rest bestScore alpha beta)
      (let bestScore := min bestScore s
       let beta := min beta bestScore
       if beta ≤ alpha then bestScore else abLoop child isMaximizing rest bestScore alpha beta)

/-- ai.js `ChessAI.minimaxSearchAlphaBeta` -/
def minimaxSearchAlphaBeta :
    Board → Color → CastlingRights → Option (Int × Int) → Nat → Score → Score → Bool → Score
  | board, color, castlingRights, enPassantSquare, depth, alpha, beta, isMaximizing =>
    let opponent := oppColor color
    let side := cond isMaximizing color opponent
    if isCheckmate board side castlingRights enPassantSquare then
      cond isMaximizing (Score.num 10000) (Score.num (-10000))
    else if isStalemate board side castlingRights enPassantSquare then Score.num 0
    else if isInsufficientMaterial board then Score.num 0
    else
      match depth with
      | 0 => Score.num (evaluateBoard board color)
      | d + 1 =>
        let moves := getAllLegalMoves board side castlingRights enPassantSquare
        abLoop
          (fun move a β =>
            let sr := simulateMove board move castlingRights enPassantSquare
            minimaxSearchAlphaBeta sr.newBoard color sr.newCastling sr.newEnPassant d a β
              (! isMaximizing))
          isMaximizing moves (cond isMaximizing Score.negInf Score.posInf) alpha beta

/-- ai.js `ChessAI.minimax` (root).  Every iteration scores
`minimaxSearch(board, …)` on the *unsimulated* input board. -/
def minimax (board : Board) (color : Color) (castlingRights : CastlingRights)
    (enPassantSquare : Option (Int × Int)) (depth : Nat) (isMaximizing : Bool) :
    Option Move :=
  match depth with
  | 0 => none
  | d + 1 =>
    let moves := getAllLegalMoves board color castlingRights enPassantSquare
    if moves.isEmpty then none
    else
      let r := moves.foldl
        (fun acc move =>
          let s := minimaxSearch board color castlingRights enPassantSquare d (! isMaximizing)
          cond isMaximizing
            (if acc.2 < s then (move, s) else acc)
            (if s < acc.2 then (move, s) else acc))
        (moves.headD default, cond isMaximizing Score.negInf Score.posInf)
      some r.1

/-- The root loop of ai.js `ChessAI.minimaxAlphaBeta` with its beta cutoff. -/
def abRootLoop (child : Score → Score → Score) (isMaximizing : Bool) :
    List Move → Move → Score → Score → Score → Move
  | [], bestMove, _, _, _ => bestMove
  | move :: rest, bestMove, bestValue, alpha, beta =>
    let s := child alpha beta
    if isMaximizing then
      let p := if bestValue < s then (move, s) else (bestMove, bestValue)
      let alpha := max alpha p.2
      if beta ≤ alpha then p.1 else abRootLoop child isMaximizing rest p.1 p.2 alpha beta
    else
      let p := if s < bestValue then (move, s) else (bestMove, bestValue)
      let beta := min beta p.2
      if beta ≤ alpha then p.1 else abRootLoop child isMaximizing rest p.1 p.2 alpha beta

/-- ai.js `ChessAI.minimaxAlphaBeta` (root): again every iteration scores the
*unsimulated* input board, with the current alpha/beta window. -/
def minimaxAlphaBeta (board : Board) (color : Color) (castlingRights : CastlingRights)
    (enPassantSquare : Option (Int × Int)) (depth : Nat) (alpha beta : Score)
    (isMaximizing : Bool) : Option Move :=
  match depth with
  | 0 => none
  | d + 1 =>
    let moves := getAllLegalMoves board color castlingRights enPassantSquare
    if moves.isEmpty then none
    else some (abRootLoop
      (fun a β => minimaxSearchAlphaBeta board color castlingRights enPassantSquare d a β
        (! isMaximizing))
      isMaximizing moves (moves.headD default) (cond isMaximizing Score.negInf Score.posInf)
      alpha beta)

end ChessAI

/-- Modelled from the spec: the attack predicate the specification describes
("true iff any opposing piece has that square in its pseudo-legal destination
set, where a pawn's attack squares are its two diagonal-capture destinations
computed without requiring an occupant, and pawn forward pushes are not
attacks").  Compared against the implementation's `isSquareAttacked`. -/
def attackedSpecClaim (b : Board) (row col : Int) (color : Color) : Bool :=
  (getPiecesOfColor b (oppColor color)).any fun x =>
    match x.1.ptype with
    | .P =>
      let direction : Int := if x.1.pcolor = .white then -1 else 1
      decide (row = x.2.1 + direction ∧ (col = x.2.2 - 1 ∨ col = x.2.2 + 1))
    | _ => (getPseudoLegalMoves b x.2.1 x.2.2).any fun m =>
        decide (m.1 = row ∧ m.2 = col)

/-- Modelled from the spec: the per-candidate recursive score the root search
is described as maximizing — simulate the candidate with the engine's own
`simulateMove`, then recurse one ply with roles swapped on the resulting
position. -/
def rootScoreSpec (b : Board) (color : Color) (castlingRights : CastlingRights)
    (enPassantSquare : Option (Int × Int)) (depth : Nat) (move : Move) : Score :=
  let sr := ChessAI.simulateMove b move castlingRights enPassantSquare
  ChessAI.minimaxSearch sr.newBoard color sr.newCastling sr.newEnPassant (depth - 1) false

/-- JavaScript subscript semantics of rules.js `getLegalMoves`'s first line
`board[row][col]`: an out-of-range row makes `board[row]` `undefined`, and
subscripting `undefined` throws a TypeError (modelled as `Except.error`);
an in-range row with an out-of-range column yields `undefined`, which the
body treats exactly like an empty square. -/
def getLegalMovesChecked (b : Board) (row col : Int) (castlingRights : CastlingRights)
    (enPassantSquare : Option (Int × Int)) (color : Color) :
    Except Unit (List (Int × Int)) :=
  if 0 ≤ row ∧ row < 8 then
    Except.ok (getLegalMoves b row col castlingRights enPassantSquare color)
  else Except.error ()

/-- Same subscript semantics for pieces.js `getPseudoLegalMoves`. -/
def getPseudoLegalMovesChecked (b : Board) (row col : Int) :
    Except Unit (List (Int × Int)) :=
  if 0 ≤ row ∧ row < 8 then Except.ok (getPseudoLegalMoves b row col)
  else Except.error ()

/-! Concrete positions used as witnesses and counterexamples. -/

/-- Two bare kings on their home squares. -/
def kingsOnly : Board := mkBoard
  [[ee, ee, ee, ee, bK, ee, ee, ee],
   [], [], [], [], [], [],
   [ee, ee, ee, ee, wK, ee, ee, ee]]

/-- A lone white king: black has no king anywhere. -/
def noBlackKing : Board := mkBoard
  [[], [], [], [], [], [], [],
   [ee, ee, ee, ee, wK, ee, ee, ee]]

/-- White king on (7,5) — not its home column — with the queenside rook on
(7,0) and (7,1)…(7,3) empty. -/
def castleCexBoard : Board := mkBoard
  [[ee, ee, ee, ee, bK, ee, ee, ee],
   [], [], [], [], [], [],
   [wR, ee, ee, ee, ee, wK, ee, ee]]

/-- Black pawn on (1,1): its abstract diagonal-capture squares (2,0)/(2,2)
are empty, the square (2,1) ahead of it is empty. -/
def pawnAttackBoard : Board := mkBoard
  [[ee, ee, ee, ee, ee, ee, ee, bK],
   [ee, bP, ee, ee, ee, ee, ee, ee],
   [], [], [], [], [],
   [ee, ee, ee, ee, ee, ee, ee, wK]]

/-- White to move: the first legal move in generation order is the quiet
pawn push (3,3)→(2,3), while (3,3)→(2,4) captures the black pawn. -/
def rootBugBoard : Board := mkBoard
  [[ee, ee, ee, ee, ee, ee, ee, bK],
   [],
   [ee, ee, ee, ee, bP, ee, ee, ee],
   [ee, ee, ee, wP, ee, ee, ee, ee],
   [], [], [],
   [wK, ee, ee, ee, ee, ee, ee, ee]]

/-- Black is checkmated: king (0,0), white queen (1,1) guarded by the white
king (2,2). -/
def mateBoard : Board := mkBoard
  [[bK, ee, ee, ee, ee, ee, ee, ee],
   [ee, wQ, ee, ee, ee, ee, ee, ee],
   [ee, ee, wK, ee, ee, ee, ee, ee]]


/-! ### Supporting lemmas -/

/-- Pointwise order on castling-rights records: each flag of the first
record implies the same flag of the second. -/
def rightsLe (a b : CastlingRights) : Prop :=
  a.whiteKingside ≤ b.whiteKingside ∧ a.whiteQueenside ≤ b.whiteQueenside ∧
    a.blackKingside ≤ b.blackKingside ∧ a.blackQueenside ≤ b.blackQueenside

lemma updateCastlingRights_le (cr : CastlingRights) (fromRow fromCol : Int)
    (piece : Option Piece) :
    rightsLe (updateCastlingRights cr fromRow fromCol piece) cr := by
  simp only [updateCastlingRights]
  split_ifs <;>
    exact ⟨by first | exact Bool.false_le _ | exact le_refl _,
           by first | exact Bool.false_le _ | exact le_refl _,
           by first | exact Bool.false_le _ | exact le_refl _,
           by first | exact Bool.false_le _ | exact le_refl _⟩

lemma simulateMove_newCastling_le (b : Board) (mv : Move) (cr : CastlingRights)
    (ep : Option (Int × Int)) :
    rightsLe (ChessAI.simulateMove b mv cr ep).newCastling cr := by
  have h0 := updateCastlingRights_le cr mv.fromSq.1 mv.fromSq.2 (getSq b mv.fromSq.1 mv.fromSq.2)
  simp only [ChessAI.simulateMove]
  split_ifs <;>
    exact ⟨by first | exact Bool.false_le _ | exact h0.1,
           by first | exact Bool.false_le _ | exact h0.2.1,
           by first | exact Bool.false_le _ | exact h0.2.2.1,
           by first | exact Bool.false_le _ | exact h0.2.2.2⟩

/-- The board holds no king of the given color anywhere. -/
def noKingOf (b : Board) (color : Color) : Prop :=
  ∀ r c : Fin 8, ¬ b r c = some ⟨PType.K, color⟩

lemma getSq_ne_king {b : Board} {color : Color} (h : noKingOf b color) (r c : Int) :
    ¬ getSq b r c = some ⟨PType.K, color⟩ := by
  unfold getSq
  split
  · exact h _ _
  · simp

lemma setSq_noKing {b : Board} {color : Color} {r c : Int} {v : Option Piece}
    (h : noKingOf b color) (hv : ¬ v = some ⟨PType.K, color⟩) :
    noKingOf (setSq b r c v) color := by
  intro r' c'
  unfold setSq
  split
  · exact hv
  · exact h _ _

lemma simMoveBoard_noKing {b : Board} {color : Color} (h : noKingOf b color)
    (fromRow fromCol toRow toCol : Int) (ep : Option (Int × Int)) :
    noKingOf (simMoveBoard b fromRow fromCol toRow toCol ep) color := by
  simp only [simMoveBoard]
  split_ifs <;>
    repeat' first
      | exact h
      | apply setSq_noKing
      | apply getSq_ne_king
      | simp

lemma findKing_eq_none {b : Board} {color : Color} (h : noKingOf b color) :
    findKing b color = none := by
  unfold findKing
  have : allSquares.find? (fun rc => b rc.1 rc.2 = some ⟨PType.K, color⟩) = none := by
    rw [List.find?_eq_none]
    intro x hx
    simpa using h x.1 x.2
  rw [this]
  rfl

/-! ### Claim theorems -/

/-- C1: for every board, color, castling-rights record, en-passant target and
square, every destination returned by `getLegalMoves`, once the move is
applied exactly as the legality simulation applies it (`simMoveBoard`,
including en-passant removal and castling rook relocation), yields a board on
which that color's king — wherever `findKing` locates it — is not attacked. -/
theorem getLegalMoves_selfCheckSafe
    (b : Board) (color : Color) (cr : CastlingRights) (ep : Option (Int × Int))
    (row col : Int) (dest : Int × Int)
    (hmem : dest ∈ getLegalMoves b row col cr ep color)
    (kr kc : Int)
    (hk : findKing (simMoveBoard b row col dest.1 dest.2 ep) color = some (kr, kc)) :
    isSquareAttacked (simMoveBoard b row col dest.1 dest.2 ep) kr kc color = false := by
  simp only [getLegalMoves] at hmem
  split at hmem
  · simp at hmem
  · rw [List.mem_filter] at hmem
    have h2 : wouldLeaveKingInCheck b row col dest.1 dest.2 color cr ep = false := by
      simpa using hmem.2
    simp only [wouldLeaveKingInCheck] at h2
    rw [hk] at h2
    exact h2

/-- C1 witness: the white king's quiet step (7,4)→(6,4) on the two-king board
is returned legal, and the simulated board's white king on (6,4) is indeed
unattacked. -/
theorem getLegalMoves_selfCheckSafe_witness :
    ((6 : Int), (4 : Int)) ∈ getLegalMoves kingsOnly 7 4 allRights none .white ∧
    findKing (simMoveBoard kingsOnly 7 4 6 4 none) .white = some (6, 4) ∧
    isSquareAttacked (simMoveBoard kingsOnly 7 4 6 4 none) 6 4 .white = false :=
  ⟨by decide, by decide,
    getLegalMoves_selfCheckSafe kingsOnly .white allRights none 7 4 (6, 4) (by decide)
      6 4 (by decide)⟩

/-- C7: neither `updateCastlingRights` nor the search's `simulateMove`
(including its captured-rook adjustment) ever turns a castling-right flag
from `false` to `true`. -/
theorem castlingRights_monotone (cr : CastlingRights) (fromRow fromCol : Int)
    (piece : Option Piece) (b : Board) (mv : Move) (ep : Option (Int × Int)) :
    rightsLe (updateCastlingRights cr fromRow fromCol piece) cr ∧
    rightsLe (ChessAI.simulateMove b mv cr ep).newCastling cr :=
  ⟨updateCastlingRights_le cr fromRow fromCol piece,
    simulateMove_newCastling_le b mv cr ep⟩

/-- C8: `updateEnPassantSquare` yields the skipped square
`((fromRow+toRow)/2, toCol)` exactly when the moved piece is a pawn advancing
two rows, and `none` in every other case. -/
theorem updateEnPassantSquare_spec (fromRow toRow toCol : Int) (piece : Option Piece) :
    (updateEnPassantSquare fromRow toRow toCol piece =
        some ((fromRow + toRow) / 2, toCol) ↔
      getPieceType piece = some .P ∧ (toRow - fromRow).natAbs = 2) ∧
    (updateEnPassantSquare fromRow toRow toCol piece = none ↔
      ¬ (getPieceType piece = some .P ∧ (toRow - fromRow).natAbs = 2)) := by
  unfold updateEnPassantSquare
  split_ifs with h1 h2 <;> simp_all

/-- C10: a board without a king of some color: `isInCheck` is `false`,
`wouldLeaveKingInCheck` is `true` for every simulated move, `getLegalMoves`
is empty everywhere for that color, so `isCheckmate` is `false` while
`isStalemate` is `true`. -/
theorem noKing_behavior (b : Board) (color : Color) (cr : CastlingRights)
    (ep : Option (Int × Int)) (h : noKingOf b color) :
    isInCheck b color = false ∧
    (∀ fromRow fromCol toRow toCol : Int,
      wouldLeaveKingInCheck b fromRow fromCol toRow toCol color cr ep = true) ∧
    (∀ row col : Int, getLegalMoves b row col cr ep color = []) ∧
    isCheckmate b color cr ep = false ∧
    isStalemate b color cr ep = true := by
  have hic : isInCheck b color = false := by
    unfold isInCheck
    rw [findKing_eq_none h]
  have hw : ∀ fr fc tr tc : Int,
      wouldLeaveKingInCheck b fr fc tr tc color cr ep = true := by
    intro fr fc tr tc
    simp only [wouldLeaveKingInCheck]
    rw [findKing_eq_none (simMoveBoard_noKing h fr fc tr tc ep)]
  have hlm : ∀ row col : Int, getLegalMoves b row col cr ep color = [] := by
    intro row col
    simp only [getLegalMoves]
    split
    · rfl
    · rw [List.filter_eq_nil_iff]
      intro a ha
      simp [hw row col a.1 a.2]
  refine ⟨hic, hw, hlm, ?_, ?_⟩
  · unfold isCheckmate
    rw [hic]
    rfl
  · unfold isStalemate
    rw [hic]
    simp [hlm]

/-- C10 witness: with only a white king on the board, black has no king, and
black is classified stalemated. -/
theorem noKing_behavior_witness :
    noKingOf noBlackKing .black ∧ isStalemate noBlackKing .black allRights none = true :=
  ⟨by unfold noKingOf; decide, (noKing_behavior noBlackKing .black allRights none (by unfold noKingOf; decide)).2.2.2.2⟩

/-- C2 (code bug): on `rootBugBoard` both root searches score every candidate
on the *unsimulated* input position, so both return the first generated move,
the quiet push (3,3)→(2,3) — even though the capture (3,3)→(2,4) is also
legal and has the strictly larger one-ply recursive score that the
specification says the root maximizes. -/
theorem minimax_root_ignores_candidates :
    ChessAI.minimax rootBugBoard .white allRights none 1 true =
      some ⟨(3, 3), (2, 3)⟩ ∧
    ChessAI.minimaxAlphaBeta rootBugBoard .white allRights none 1 Score.negInf
      Score.posInf true = some ⟨(3, 3), (2, 3)⟩ ∧
    (⟨(3, 3), (2, 4)⟩ : Move) ∈ ChessAI.getAllLegalMoves rootBugBoard .white allRights none ∧
    rootScoreSpec rootBugBoard .white allRights none 1 ⟨(3, 3), (2, 3)⟩ <
      rootScoreSpec rootBugBoard .white allRights none 1 ⟨(3, 3), (2, 4)⟩ :=
  of_decide_eq_true (by with_unfolding_all rfl)

/-- C5 (code bug): on `mateBoard` the side to move (black) is checkmated, yet
`minimaxSearch` / `minimaxSearchAlphaBeta` return `+10000` at a maximizing
node for black, and `-10000` at a minimizing node (searching color white,
side to move black) — the reverse of the claimed signs. -/
theorem minimaxSearch_mate_sign :
    isCheckmate mateBoard .black allRights none = true ∧
    ChessAI.minimaxSearch mateBoard .black allRights none 2 true = Score.num 10000 ∧
    ChessAI.minimaxSearchAlphaBeta mateBoard .black allRights none 2 Score.negInf
      Score.posInf true = Score.num 10000 ∧
    ChessAI.minimaxSearch mateBoard .white allRights none 2 false =
      Score.num (-10000) := by
  have hc : isCheckmate mateBoard .black allRights none = true := by decide
  refine ⟨hc, ?_, ?_, ?_⟩
  · rw [ChessAI.minimaxSearch]
    simp only [cond_true, hc, if_true]
  · rw [ChessAI.minimaxSearchAlphaBeta]
    simp only [cond_true, hc, if_true]
  · rw [ChessAI.minimaxSearch]
    simp only [cond_false, oppColor, hc, if_true]

/-- C3 counterexample: on `pawnAttackBoard` the black pawn on (1,1) makes the
claim's abstract attack predicate true on the empty square (2,0), but the
implementation's `isSquareAttacked` is false there; conversely the forward
push square (2,1) is `isSquareAttacked` but is no attack per the claim. -/
theorem isSquareAttacked_claim_cex :
    attackedSpecClaim pawnAttackBoard 2 0 .white = true ∧
    isSquareAttacked pawnAttackBoard 2 0 .white = false ∧
    attackedSpecClaim pawnAttackBoard 2 1 .white = false ∧
    isSquareAttacked pawnAttackBoard 2 1 .white = true := by decide

/-- C3 amended: `isSquareAttacked` is true exactly when some opposing piece
has the square in its raw `generatePieceMoves` set — in which a pawn
contributes its forward pushes onto empty squares and its diagonal squares
only when occupied, and every piece's targets ignore the occupant's color. -/
theorem isSquareAttacked_iff_raw (b : Board) (row col : Int) (color : Color) :
    isSquareAttacked b row col color = true ↔
      ∃ x ∈ getPiecesOfColor b (oppColor color),
        (row, col) ∈ generatePieceMoves b x.2.1 x.2.2 x.1.ptype := by
  unfold isSquareAttacked
  rw [List.any_eq_true]
  constructor
  · rintro ⟨x, hx, hinner⟩
    rw [List.any_eq_true] at hinner
    obtain ⟨m, hm, heq⟩ := hinner
    have : m = (row, col) := by
      have h := of_decide_eq_true heq
      exact Prod.ext h.1 h.2
    exact ⟨x, hx, this ▸ hm⟩
  · rintro ⟨x, hx, hm⟩
    refine ⟨x, hx, ?_⟩
    rw [List.any_eq_true]
    exact ⟨(row, col), hm, by simp⟩

/-- C9 counterexample: called with an out-of-range row, `getLegalMoves` and
`getPseudoLegalMoves` subscript `undefined` and raise a TypeError (modelled
as `Except.error ()`) instead of returning an empty result. -/
theorem outOfBoard_raises_cex :
    getLegalMovesChecked kingsOnly 8 0 allRights none .white = Except.error () ∧
    getPseudoLegalMovesChecked kingsOnly (-1) 0 = Except.error () := by
  constructor <;> simp [getLegalMovesChecked, getPseudoLegalMovesChecked]

/-- C9 amended: `Board.getPieceAt` fails soft (returns `none`) for every
out-of-board coordinate; `getLegalMoves`/`getPseudoLegalMoves` return an
empty list when the row is in range and only the column is out of range, but
raise a TypeError when the row itself is out of range. -/
theorem outOfBoard_behavior (b : Board) (row col : Int) (cr : CastlingRights)
    (ep : Option (Int × Int)) (color : Color) :
    (isValidCoord row col = false → Board.getPieceAt b row col = none) ∧
    ((0 ≤ row ∧ row < 8) → ¬ (0 ≤ col ∧ col < 8) →
      getLegalMovesChecked b row col cr ep color = Except.ok [] ∧
      getPseudoLegalMovesChecked b row col = Except.ok []) ∧
    (¬ (0 ≤ row ∧ row < 8) →
      getLegalMovesChecked b row col cr ep color = Except.error () ∧
      getPseudoLegalMovesChecked b row col = Except.error ()) := by
  refine ⟨?_, ?_, ?_⟩
  · intro hv
    unfold Board.getPieceAt
    rw [hv]
    rfl
  · intro hr hc
    have hget : getSq b row col = none := by
      unfold getSq
      split
      · next hh => exact absurd ⟨hh.2.2.1, hh.2.2.2⟩ hc
      · rfl
    constructor
    · unfold getLegalMovesChecked
      rw [if_pos hr]
      have : getLegalMoves b row col cr ep color = [] := by
        simp [getLegalMoves, hget, getPieceColor]
      rw [this]
    · unfold getPseudoLegalMovesChecked
      rw [if_pos hr]
      have : getPseudoLegalMoves b row col = [] := by
        simp [getPseudoLegalMoves, hget]
      rw [this]
  · intro hr
    exact ⟨by unfold getLegalMovesChecked; rw [if_neg hr],
           by unfold getPseudoLegalMovesChecked; rw [if_neg hr]⟩

/-- C9 witness: a concrete out-of-board column fails soft. -/
theorem outOfBoard_behavior_witness :
    Board.getPieceAt kingsOnly 0 9 = none ∧
    getLegalMovesChecked kingsOnly 0 9 allRights none .white = Except.ok [] :=
  ⟨(outOfBoard_behavior kingsOnly 0 9 allRights none .white).1 (by decide),
   ((outOfBoard_behavior kingsOnly 0 9 allRights none .white).2.1 (by decide) (by decide)).1⟩

/-- C6 counterexample: `getCastlingMoves` yields the queenside destination
(7,2) for a white king standing on (7,5) — the king is *not* on its home
square (7,4), which the claim requires; only the row is ever checked. -/
theorem getCastlingMoves_claim_cex :
    getCastlingMoves castleCexBoard 7 5 .white allRights = [(7, 2)] ∧
    getSq castleCexBoard 7 4 = none ∧
    getSq castleCexBoard 7 5 = wK := by decide

/-- C6 amended: a destination is produced iff the king *row* argument is the
home row (column is never examined), the matching right flag is set, the
rook of that color sits on its home corner, and the fixed squares between
the home king square and that rook are empty; only (row,6) and (row,2) are
ever produced. -/
theorem getCastlingMoves_spec (board : Board) (kingRow kingCol : Int) (color : Color)
    (cr : CastlingRights) (dest : Int × Int) :
    dest ∈ getCastlingMoves board kingRow kingCol color cr ↔
      ((color = .white ∧ kingRow = 7 ∧
        ((dest = ((7:Int), (6:Int)) ∧ cr.whiteKingside = true ∧ getSq board 7 7 = wR ∧
            getSq board 7 5 = none ∧ getSq board 7 6 = none) ∨
         (dest = ((7:Int), (2:Int)) ∧ cr.whiteQueenside = true ∧ getSq board 7 0 = wR ∧
            getSq board 7 1 = none ∧ getSq board 7 2 = none ∧ getSq board 7 3 = none))) ∨
       (color = .black ∧ kingRow = 0 ∧
        ((dest = ((0:Int), (6:Int)) ∧ cr.blackKingside = true ∧ getSq board 0 7 = bR ∧
            getSq board 0 5 = none ∧ getSq board 0 6 = none) ∨
         (dest = ((0:Int), (2:Int)) ∧ cr.blackQueenside = true ∧ getSq board 0 0 = bR ∧
            getSq board 0 1 = none ∧ getSq board 0 2 = none ∧ getSq board 0 3 = none)))) := by
  cases color <;>
    simp only [getCastlingMoves] <;>
    split_ifs <;>
    simp_all [List.mem_append]

/-! ### Alpha-beta equivalence (C4) -/

/-- Knuth–Moore soundness of a fail-soft alpha-beta value `r` for the true
minimax value `v` within the window `(alpha, beta)`: values inside the
window are exact, a fail-low is an upper bound on `v`, a fail-high a lower
bound. -/
def ABsound (alpha beta r v : Score) : Prop :=
  (r ≤ alpha → v ≤ r) ∧ (beta ≤ r → r ≤ v) ∧ (alpha < r → r < beta → r = v)

lemma absound_self (alpha beta r : Score) : ABsound alpha beta r r :=
  ⟨fun _ => le_refl r, fun _ => le_refl r, fun _ _ => rfl⟩

lemma le_foldlMax (V : Move → Score) (i : Score) (l : List Move) :
    i ≤ l.foldl (fun a m => max a (V m)) i := by
  induction l generalizing i with
  | nil => exact le_refl i
  | cons m rest ih =>
    rw [List.foldl_cons]
    exact le_trans (le_max_left i (V m)) (ih (max i (V m)))

lemma foldlMin_le (V : Move → Score) (i : Score) (l : List Move) :
    l.foldl (fun a m => min a (V m)) i ≤ i := by
  induction l generalizing i with
  | nil => exact le_refl i
  | cons m rest ih =>
    rw [List.foldl_cons]
    exact le_trans (ih (min i (V m))) (min_le_left i (V m))

lemma foldlMax_absorb (V : Move → Score) (i : Score) (l : List Move) :
    l.foldl (fun a m => max a (V m)) i =
      max i (l.foldl (fun a m => max a (V m)) ⊥) := by
  induction l generalizing i with
  | nil => simp
  | cons m rest ih =>
    rw [List.foldl_cons, List.foldl_cons, ih (max i (V m)), ih (max ⊥ (V m)),
      max_eq_right (bot_le : (⊥ : Score) ≤ V m), max_assoc]

lemma foldlMin_absorb (V : Move → Score) (i : Score) (l : List Move) :
    l.foldl (fun a m => min a (V m)) i =
      min i (l.foldl (fun a m => min a (V m)) ⊤) := by
  induction l generalizing i with
  | nil => simp
  | cons m rest ih =>
    rw [List.foldl_cons, List.foldl_cons, ih (min i (V m)), ih (min ⊤ (V m)),
      min_eq_right (le_top : V m ≤ (⊤ : Score)), min_assoc]

/-- Soundness of the maximizing alpha-beta loop: provided every child value
is sound for its window, the loop result is sound for the running true
maximum. -/
lemma abLoop_max_sound (child : Move → Score → Score → Score) (V : Move → Score)
    (hchild : ∀ m a β, a < β → ABsound a β (child m a β) (V m)) :
    ∀ (l : List Move) (best alpha beta : Score), alpha < beta → best ≤ alpha →
      ABsound alpha beta (ChessAI.abLoop child true l best alpha beta)
        (l.foldl (fun a m => max a (V m)) best) := by
  intro l
  induction l with
  | nil =>
    intro best alpha beta hab hba
    exact absound_self ..
  | cons m rest ih =>
    intro best alpha beta hab hba
    simp only [ChessAI.abLoop, cond_true, List.foldl_cons]
    set s := child m alpha beta with hsdef
    have hs : ABsound alpha beta s (V m) := hchild m alpha beta hab
    by_cases hcut : beta ≤ max alpha (max best s)
    · rw [if_pos hcut]
      have hbs : beta ≤ s := by
        rcases le_max_iff.mp hcut with h | h
        · exact absurd h (not_le.mpr hab)
        · rcases le_max_iff.mp h with h2 | h2
          · exact absurd (h2.trans hba) (not_le.mpr hab)
          · exact h2
      have hbest : max best s = s :=
        max_eq_right ((hba.trans hab.le).trans hbs)
      rw [hbest]
      have hsV : s ≤ V m := hs.2.1 hbs
      have hv' : s ≤ rest.foldl (fun a m => max a (V m)) (max best (V m)) :=
        hsV.trans ((le_max_right best (V m)).trans (le_foldlMax V (max best (V m)) rest))
      refine ⟨fun hr => absurd (lt_of_lt_of_le hab (hbs.trans hr)) (lt_irrefl alpha),
        fun _ => hv',
        fun _ hrb => absurd (lt_of_le_of_lt hbs hrb) (lt_irrefl beta)⟩
    · rw [if_neg hcut]
      have hab' : max alpha (max best s) < beta := not_le.mp hcut
      by_cases hsa : s ≤ alpha
      · -- the child failed low: its true value is at most s
        have hVs : V m ≤ s := hs.1 hsa
        have halpha : max alpha (max best s) = alpha := max_eq_left (max_le hba hsa)
        have IH := ih (max best s) (max alpha (max best s)) beta hab' (le_max_right ..)
        rw [halpha] at IH
        rw [halpha]
        set r := ChessAI.abLoop child true rest (max best s) alpha beta with hrdef
        set M := rest.foldl (fun a m => max a (V m)) ⊥ with hMdef
        have habsS : rest.foldl (fun a m => max a (V m)) (max best s) = max (max best s) M :=
          foldlMax_absorb ..
        have habsV : rest.foldl (fun a m => max a (V m)) (max best (V m)) =
            max (max best (V m)) M := foldlMax_absorb ..
        rw [habsS] at IH
        rw [habsV]
        have hbb : max best (V m) ≤ max best s := max_le (le_max_left ..) (hVs.trans (le_max_right ..))
        refine ⟨?_, ?_, ?_⟩
        · intro hr
          exact (max_le_max hbb (le_refl M)).trans (IH.1 hr)
        · intro hbr
          have hrv := IH.2.1 hbr
          rcases max_choice (max best s) M with h | h
          · rw [h] at hrv
            exact absurd ((hab.trans_le hbr).trans_le (hrv.trans (max_le hba hsa)))
              (lt_irrefl alpha)
          · rw [h] at hrv
            exact hrv.trans (le_max_right ..)
        · intro har hrb
          have hrv := IH.2.2 har hrb
          rcases max_choice (max best s) M with h | h
          · rw [h] at hrv
            exact absurd (har.trans_le (hrv.le.trans (max_le hba hsa))) (lt_irrefl alpha)
          · rw [h] at hrv
            rw [max_eq_right ((max_le hba (hVs.trans hsa)).trans (hrv ▸ har.le))]
            exact hrv
      · -- the child value is exact: s = V m
        push_neg at hsa
        have hsb : s < beta := by
          by_contra hns
          push_neg at hns
          exact hcut (hns.trans ((le_max_right best s).trans (le_max_right alpha _)))
        have hsV : s = V m := hs.2.2 hsa hsb
        have hbests : max best s = s := max_eq_right (hba.trans hsa.le)
        have halpha : max alpha (max best s) = s := by
          rw [hbests, max_eq_right hsa.le]
        have IH := ih (max best s) (max alpha (max best s)) beta hab' (le_max_right ..)
        rw [halpha, hbests] at IH
        rw [halpha, ← hsV, hbests]
        set r := ChessAI.abLoop child true rest s s beta with hrdef
        refine ⟨fun hr => IH.1 (hr.trans hsa.le), IH.2.1, ?_⟩
        intro har hrb
        rcases lt_or_le s r with h | h
        · exact IH.2.2 h hrb
        · exact le_antisymm (h.trans (le_foldlMax V s rest)) (IH.1 h)

/-- Soundness of the minimizing alpha-beta loop (dual of
`abLoop_max_sound`). -/
lemma abLoop_min_sound (child : Move → Score → Score → Score) (V : Move → Score)
    (hchild : ∀ m a β, a < β → ABsound a β (child m a β) (V m)) :
    ∀ (l : List Move) (best alpha beta : Score), alpha < beta → beta ≤ best →
      ABsound alpha beta (ChessAI.abLoop child false l best alpha beta)
        (l.foldl (fun a m => min a (V m)) best) := by
  intro l
  induction l with
  | nil =>
    intro best alpha beta hab hba
    exact absound_self ..
  | cons m rest ih =>
    intro best alpha beta hab hba
    simp only [ChessAI.abLoop, cond_false, List.foldl_cons]
    set s := child m alpha beta with hsdef
    have hs : ABsound alpha beta s (V m) := hchild m alpha beta hab
    by_cases hcut : min beta (min best s) ≤ alpha
    · rw [if_pos hcut]
      have hsa : s ≤ alpha := by
        rcases min_le_iff.mp hcut with h | h
        · exact absurd h (not_le.mpr hab)
        · rcases min_le_iff.mp h with h2 | h2
          · exact absurd (hba.trans h2) (not_le.mpr hab)
          · exact h2
      have hbest : min best s = s :=
        min_eq_right (hsa.trans (hab.le.trans hba))
      rw [hbest]
      have hsV : V m ≤ s := hs.1 hsa
      have hv' : rest.foldl (fun a m => min a (V m)) (min best (V m)) ≤ s :=
        (foldlMin_le V (min best (V m)) rest).trans ((min_le_right best (V m)).trans hsV)
      refine ⟨fun _ => hv',
        fun hbr => absurd (hbr.trans hsa) (not_le.mpr hab),
        fun har _ => absurd (har.trans_le hsa) (lt_irrefl alpha)⟩
    · rw [if_neg hcut]
      have hab' : alpha < min beta (min best s) := not_le.mp hcut
      by_cases hsb : beta ≤ s
      · -- the child failed high: its true value is at least s
        have hVs : s ≤ V m := hs.2.1 hsb
        have hbeta : min beta (min best s) = beta := min_eq_left (le_min hba hsb)
        have IH := ih (min best s) alpha (min beta (min best s)) hab' (min_le_right ..)
        rw [hbeta] at IH
        rw [hbeta]
        set r := ChessAI.abLoop child false rest (min best s) alpha beta with hrdef
        set M := rest.foldl (fun a m => min a (V m)) ⊤ with hMdef
        have habsS : rest.foldl (fun a m => min a (V m)) (min best s) = min (min best s) M :=
          foldlMin_absorb ..
        have habsV : rest.foldl (fun a m => min a (V m)) (min best (V m)) =
            min (min best (V m)) M := foldlMin_absorb ..
        rw [habsS] at IH
        rw [habsV]
        have hbb : min best s ≤ min best (V m) :=
          le_min (min_le_left ..) ((min_le_right ..).trans hVs)
        refine ⟨?_, ?_, ?_⟩
        · intro hr
          have hrv := IH.1 hr
          rcases min_choice (min best s) M with h | h
          · rw [h] at hrv
            exact absurd ((le_min hba hsb).trans (hrv.trans hr)) (not_le.mpr hab)
          · rw [h] at hrv
            exact (min_le_right ..).trans hrv
        · intro hbr
          exact (IH.2.1 hbr).trans (min_le_min hbb (le_refl M))
        · intro har hrb
          have hrv := IH.2.2 har hrb
          rcases min_choice (min best s) M with h | h
          · rw [h] at hrv
            have hbr2 : beta ≤ r := by
              rw [hrv]
              exact le_min hba hsb
            exact absurd (hrb.trans_le hbr2) (lt_irrefl r)
          · rw [h] at hrv
            rw [min_eq_right (((hrv ▸ hrb).le).trans (le_min hba (hsb.trans hVs)))]
            exact hrv
      · -- the child value is exact: s = V m
        push_neg at hsb
        have hsa : alpha < s :=
          lt_of_lt_of_le hab' ((min_le_right ..).trans (min_le_right ..))
        have hsV : s = V m := hs.2.2 hsa hsb
        have hbests : min best s = s := min_eq_right (hsb.le.trans hba)
        have hbeta : min beta (min best s) = s := by
          rw [hbests, min_eq_right hsb.le]
        have IH := ih (min best s) alpha (min beta (min best s)) hab' (min_le_right ..)
        rw [hbeta, hbests] at IH
        rw [hbeta, ← hsV, hbests]
        set r := ChessAI.abLoop child false rest s alpha s with hrdef
        refine ⟨IH.1, fun hbr => IH.2.1 (hsb.le.trans hbr), ?_⟩
        intro har hrb
        rcases lt_or_le r s with h | h
        · exact IH.2.2 har h
        · exact le_antisymm (IH.2.1 h) ((foldlMin_le V s rest).trans h)

lemma Score.negInf_eq_bot : Score.negInf = ⊥ := rfl

lemma Score.posInf_eq_top : Score.posInf = (⊤ : Score) := rfl

/-- Every alpha-beta value is Knuth–Moore sound for the plain minimax value
of the same node, for every window. -/
lemma minimaxSearchAlphaBeta_sound :
    ∀ (depth : Nat) (b : Board) (color : Color) (cr : CastlingRights)
      (ep : Option (Int × Int)) (isMax : Bool) (alpha beta : Score), alpha < beta →
      ABsound alpha beta
        (ChessAI.minimaxSearchAlphaBeta b color cr ep depth alpha beta isMax)
        (ChessAI.minimaxSearch b color cr ep depth isMax) := by
  intro depth
  induction depth with
  | zero =>
    intro b color cr ep isMax alpha beta hab
    rw [ChessAI.minimaxSearchAlphaBeta, ChessAI.minimaxSearch]
    cases isMax <;>
      simp only [cond_true, cond_false] <;>
      split_ifs <;>
      exact absound_self ..
  | succ d ih =>
    intro b color cr ep isMax alpha beta hab
    rw [ChessAI.minimaxSearchAlphaBeta, ChessAI.minimaxSearch]
    cases isMax with
    | false =>
      simp only [cond_false, cond_true, Bool.not_false]
      split_ifs <;> try exact absound_self ..
      exact abLoop_min_sound
        (fun move a β =>
          ChessAI.minimaxSearchAlphaBeta (ChessAI.simulateMove b move cr ep).newBoard color
            (ChessAI.simulateMove b move cr ep).newCastling
            (ChessAI.simulateMove b move cr ep).newEnPassant d a β true)
        (fun move =>
          ChessAI.minimaxSearch (ChessAI.simulateMove b move cr ep).newBoard color
            (ChessAI.simulateMove b move cr ep).newCastling
            (ChessAI.simulateMove b move cr ep).newEnPassant d true)
        (fun m a β h => ih (ChessAI.simulateMove b m cr ep).newBoard color
          (ChessAI.simulateMove b m cr ep).newCastling
          (ChessAI.simulateMove b m cr ep).newEnPassant true a β h)
        (ChessAI.getAllLegalMoves b (oppColor color) cr ep) ⊤ alpha beta hab le_top
    | true =>
      simp only [cond_true, Bool.not_true]
      split_ifs <;> try exact absound_self ..
      exact abLoop_max_sound
        (fun move a β =>
          ChessAI.minimaxSearchAlphaBeta (ChessAI.simulateMove b move cr ep).newBoard color
            (ChessAI.simulateMove b move cr ep).newCastling
            (ChessAI.simulateMove b move cr ep).newEnPassant d a β false)
        (fun move =>
          ChessAI.minimaxSearch (ChessAI.simulateMove b move cr ep).newBoard color
            (ChessAI.simulateMove b move cr ep).newCastling
            (ChessAI.simulateMove b move cr ep).newEnPassant d false)
        (fun m a β h => ih (ChessAI.simulateMove b m cr ep).newBoard color
          (ChessAI.simulateMove b m cr ep).newCastling
          (ChessAI.simulateMove b m cr ep).newEnPassant false a β h)
        (ChessAI.getAllLegalMoves b color cr ep) ⊥ alpha beta hab bot_le

/-- C4: on every position, castling-rights record, en-passant target, depth
and maximizing flag, the alpha-beta search called with the full window
`(-Infinity, Infinity)` returns exactly the plain minimax score. -/
theorem alphaBeta_equals_minimax (b : Board) (color : Color) (cr : CastlingRights)
    (ep : Option (Int × Int)) (depth : Nat) (isMax : Bool) :
    ChessAI.minimaxSearchAlphaBeta b color cr ep depth Score.negInf Score.posInf isMax =
      ChessAI.minimaxSearch b color cr ep depth isMax := by
  have hbt : (⊥ : Score) < (⊤ : Score) := bot_lt_top
  have h := minimaxSearchAlphaBeta_sound depth b color cr ep isMax Score.negInf
    Score.posInf (by rw [Score.negInf_eq_bot, Score.posInf_eq_top]; exact hbt)
  set r := ChessAI.minimaxSearchAlphaBeta b color cr ep depth Score.negInf Score.posInf isMax
  set v := ChessAI.minimaxSearch b color cr ep depth isMax
  rcases le_or_lt r Score.negInf with h1 | h1
  · have hrb : r = ⊥ := le_bot_iff.mp (Score.negInf_eq_bot ▸ h1)
    have hv : v ≤ ⊥ := (h.1 h1).trans (Score.negInf_eq_bot ▸ h1)
    rw [hrb, le_bot_iff.mp hv]
  · rcases le_or_lt Score.posInf r with h2 | h2
    · have hrt : r = ⊤ := top_le_iff.mp (Score.posInf_eq_top ▸ h2)
      have hv : (⊤ : Score) ≤ v := (Score.posInf_eq_top ▸ h2).trans (h.2.1 h2)
      rw [hrt, top_le_iff.mp hv]
    · exact h.2.2 h1 h2
